import Mathlib

/-
Verification development for the documentation search-index build script
(src/scripts/build_search_index.py).

The script is a linear pipeline: it collects markdown files under a version
directory (truncating oversized ones in place), extracts front-matter
metadata and a cleaned body from each file, aggregates the resulting
documents, and publishes them to a remote index.  The definitions below are
a shallow embedding of that pipeline: Python strings become String /
List Char, file contents become lists of bytes, the per-file try/except
control flow becomes an Except value, and logging.warning calls become an
explicit list of emitted warning messages.
-/

/-! ## Front-matter values and metadata (`page.metadata`) -/

/-- A scalar value as produced by parsing a YAML front-matter block: the
value kinds the script can encounter under the keys it reads
(strings, booleans, integers, null). -/
inductive PyValue where
  | vstr : String → PyValue
  | vbool : Bool → PyValue
  | vint : Int → PyValue
  | vnone : PyValue
deriving DecidableEq

/-- Front-matter metadata: a finite mapping from string keys to values,
modelled as an association list (first binding wins, as in a dict). -/
abbrev Metadata := List (String × PyValue)

/-- Dict read `metadata.get(k)`: `none` when the key is absent. -/
def metaGet (m : Metadata) (k : String) : Option PyValue :=
  List.lookup k m

/-- Python truthiness of an optional metadata value, as used by
`if page.metadata.get("collate"):` — `None`, `False`, `""` and `0` are
falsy, everything else the script can see is truthy. -/
def truthy : Option PyValue → Bool
  | none => false
  | some PyValue.vnone => false
  | some (PyValue.vbool b) => b
  | some (PyValue.vstr s) => !(s == "")
  | some (PyValue.vint n) => !(n == 0)

/-- Errors that can be raised inside the script's per-file processing.
Only `keyError` is caught by the handler in `get_algolia_doc_from_file`. -/
inductive PyError where
  | keyError : String → PyError
  | attributeError : PyError
  | validationError : String → PyError
  | ioError : PyError
  | frontmatterError : PyError
deriving DecidableEq

/-- Dict indexing `metadata[k]`: raises `KeyError(k)` when the key is
absent. -/
def metaIndex (m : Metadata) (k : String) : Except PyError PyValue :=
  match metaGet m k with
  | some v => Except.ok v
  | none => Except.error (PyError.keyError k)

/-! ## Content cleaning (`get_page_content`) -/

/-- The scanner behind one pass of `CONTENT_REGEX.sub("", content)` with
`CONTENT_REGEX = re.compile(r"<(.*?)>", re.DOTALL | re.MULTILINE)`.
The regex engine scans left to right; at a `<` it matches lazily up to the
first subsequent `>` (DOTALL: the span may contain newlines and further
`<`), the whole match is deleted, and scanning resumes after it.  A `<`
with no later `>` matches nothing and is kept.  The boolean is the
scanner's mode: `true` while deleting the inside of a match (up to and
including its closing `>`), `false` while copying. -/
def stripAux : List Char → Bool → List Char
  | [], _ => []
  | c :: rest, true =>
    if c = '>' then stripAux rest false else stripAux rest true
  | c :: rest, false =>
    if c = '<' ∧ '>' ∈ rest then
      stripAux rest true
    else
      c :: stripAux rest false

/-- `CONTENT_REGEX.sub("", content)`: delete every lazily matched
`<...>` span. -/
def stripTagSpans (l : List Char) : List Char :=
  stripAux l false

/-- The two `.replace` calls of `get_page_content`: `.replace("\n", "")`
then `.replace("#", "")` — replacing a single character by the empty
string deletes every occurrence of it. -/
def removeNlHash (l : List Char) : List Char :=
  (l.filter (fun c => !(c == '\n'))).filter (fun c => !(c == '#'))

/-- The body of `get_page_content` on character lists: the regex pass, then
the newline and hash removal. -/
def cleanContent (l : List Char) : List Char :=
  removeNlHash (stripTagSpans l)

/-- `get_page_content`: clean the page body. -/
def get_page_content (s : String) : String :=
  (cleanContent s.toList).asString

/-- A removable angle-bracket span exists in `l`: some `<` is followed,
anywhere later, by a `>`.  Exactly when this holds does `CONTENT_REGEX`
match somewhere in `l`. -/
def hasSpan : List Char → Prop
  | [] => False
  | c :: rest => (c = '<' ∧ '>' ∈ rest) ∨ hasSpan rest

instance instDecidableHasSpan : (l : List Char) → Decidable (hasSpan l)
  | [] => Decidable.isFalse (by simp [hasSpan])
  | c :: rest =>
    have : Decidable (hasSpan rest) := instDecidableHasSpan rest
    decidable_of_iff ((c = '<' ∧ '>' ∈ rest) ∨ hasSpan rest) (by simp [hasSpan])

/-! ## File collector (`build_index`, lines 99-106) -/

/-- A file on disk under a version directory: its directory components
relative to the filesystem root of the walk, its file name (with
extension), and its content bytes.  `rglob` enumerates such files. -/
structure FSFile where
  dirs : List (List Char)
  name : List Char
  content : List Nat
deriving DecidableEq

/-- Join path components with the POSIX separator, as `str(file)` renders
a `Path`. -/
def joinPath : List (List Char) → List Char → List Char
  | [], n => n
  | d :: ds, n => d ++ '/' :: joinPath ds n

/-- `str(file)`: the full path string of the file. -/
def pathChars (f : FSFile) : List Char :=
  joinPath f.dirs f.name

/-- `Path.stem`: the file name with its final extension removed.  pathlib
keeps the whole name when the last dot is the first character of the name
or when there is no dot strictly inside the name. -/
def stemOf (name : List Char) : List Char :=
  let r := name.reverse
  let ext := r.takeWhile (fun c => !(c == '.'))
  if ext.length ≠ 0 ∧ ext.length + 1 < r.length then
    ((r.dropWhile (fun c => !(c == '.'))).tail).reverse
  else
    name

/-- The name test of `version.rglob("*.[mM][dD]")`: the name ends in a dot
followed by one character from each bracket class; `*` may match the empty
string and may itself contain dots. -/
def matchesMdGlob (name : List Char) : Bool :=
  match name.reverse with
  | d :: m :: dot :: _ =>
    (dot == '.') && (m == 'm' || m == 'M') && (d == 'd' || d == 'D')
  | _ => false

/-- `EXCLUDED_FILES = {"gdpr-banner", "menu"}` (compared against the stem). -/
def EXCLUDED_FILES : List (List Char) :=
  [String.toList "gdpr-banner", String.toList "menu"]

/-- `EXCLUDED_DIRS = {"main-concepts"}` (compared as substrings of the full
path string). -/
def EXCLUDED_DIRS : List (List Char) :=
  [String.toList "main-concepts"]

/-- The collector loop conditions of `build_index`: the rglob name pattern,
`file.stem not in EXCLUDED_FILES`, and
`not any(substring in str(file) for substring in EXCLUDED_DIRS)`. -/
def isCandidate (f : FSFile) : Bool :=
  matchesMdGlob f.name
    && !(EXCLUDED_FILES.contains (stemOf f.name))
    && !(EXCLUDED_DIRS.any (fun d => decide (d <:+: pathChars f)))

/-- The `results` list built by the collector loop: the files, in traversal
order, that pass all three conditions. -/
def collectorOutput (files : List FSFile) : List FSFile :=
  files.filter isCandidate

/-- The truncation side effect `f.truncate(100000)` applied when
`file.stat().st_size > 100000`: the on-disk content is cut to its first
100000 bytes. -/
def truncateFile (f : FSFile) : FSFile :=
  if 100000 < f.content.length then
    { f with content := f.content.take 100000 }
  else
    f

/-- The on-disk state of one file after the collector loop has run: only
files passing all three collector conditions are subject to truncation. -/
def collectorFileState (f : FSFile) : FSFile :=
  if isCandidate f then truncateFile f else f

/-- The on-disk state of the whole version directory after a collector
pass. -/
def collectorDisk (files : List FSFile) : List FSFile :=
  files.map collectorFileState

/-! ## Document extraction (`get_algolia_doc_from_file`, `AlgoliaDoc`) -/

/-- The record sent to the search index (the `AlgoliaDoc` pydantic model). -/
structure AlgoliaDoc where
  objectID : String
  title : String
  description : Option String
  categories : List String
  content : String
deriving DecidableEq

/-- `page.metadata["slug"].lstrip("/")`: strips every leading `/` from a
string; on a non-string value (including `None`) Python raises an
AttributeError, which nothing in the script catches. -/
def pyLstripSlashes : PyValue → Except PyError (List Char)
  | PyValue.vstr s => Except.ok (s.toList.dropWhile (fun c => c == '/'))
  | _ => Except.error PyError.attributeError

/-- Validation of a required `str` field of the pydantic model: accepts
exactly strings, raising a validation error otherwise (in particular for
`None`). -/
def validateStr (field : String) : PyValue → Except PyError String
  | PyValue.vstr s => Except.ok s
  | _ => Except.error (PyError.validationError field)

/-- Validation of the `Optional[str]` field `description`: an absent key or
a null value become `None`; a string passes; any other value is rejected. -/
def validateOptStr : Option PyValue → Except PyError (Option String)
  | none => Except.ok none
  | some PyValue.vnone => Except.ok none
  | some (PyValue.vstr s) => Except.ok (some s)
  | some _ => Except.error (PyError.validationError "description")

/-- The try-block body of `get_algolia_doc_from_file` applied to a parsed
page: the `collate` check, then the keyword arguments of the `AlgoliaDoc`
call in Python's left-to-right evaluation order (`metadata["slug"]`,
`metadata["title"]`, `metadata.get("description")`,
`metadata["slug"].lstrip("/").split("/")`, `get_page_content`), then the
model's field validation. -/
def docFromPage (meta : Metadata) (body : String) :
    Except PyError (Option AlgoliaDoc) :=
  if truthy (metaGet meta "collate") then Except.ok none
  else
    match metaIndex meta "slug" with
    | Except.error e => Except.error e
    | Except.ok slugV =>
      match metaIndex meta "title" with
      | Except.error e => Except.error e
      | Except.ok titleV =>
        let descV := metaGet meta "description"
        match pyLstripSlashes slugV with
        | Except.error e => Except.error e
        | Except.ok slugStripped =>
          let cats := (slugStripped.splitOn '/').map List.asString
          let content := get_page_content body
          match validateStr "objectID" slugV with
          | Except.error e => Except.error e
          | Except.ok objectID =>
            match validateStr "title" titleV with
            | Except.error e => Except.error e
            | Except.ok title =>
              match validateOptStr descV with
              | Except.error e => Except.error e
              | Except.ok desc =>
                Except.ok (some
                  { objectID := objectID, title := title, description := desc,
                    categories := cats, content := content })

/-- The outcome of `open(file)` + `frontmatter.load(f)` for one file:
either metadata plus body text, or the error raised on the way (a missing
or unreadable file, or a front-matter block the parser cannot split). -/
inductive ParseResult where
  | ok : Metadata → String → ParseResult
  | ioError : ParseResult
  | parseError : ParseResult
deriving DecidableEq

/-- Opening and parsing the file inside the try block: an I/O or parse
failure raises; otherwise the page logic of `docFromPage` runs. -/
def tryBody : ParseResult → Except PyError (Option AlgoliaDoc)
  | ParseResult.ioError => Except.error PyError.ioError
  | ParseResult.parseError => Except.error PyError.frontmatterError
  | ParseResult.ok meta body => docFromPage meta body

/-- The warning text of the `except KeyError` handler:
`f"Error processing file at {file} - [{err}]. Skipping..."`, where the
KeyError renders as the quoted missing key. -/
def warnMsg (file : String) (key : String) : String :=
  "Error processing file at " ++ file ++ " - ['" ++ key ++ "']. Skipping..."

/-- `try ... except KeyError as err:` — a KeyError from the body is turned
into a warning plus a `None` result; any other error propagates.  The
second component is the list of warnings logged. -/
def tryCatchKeyError (body : Except PyError (Option AlgoliaDoc))
    (file : String) : Except PyError (Option AlgoliaDoc) × List String :=
  match body with
  | Except.ok v => (Except.ok v, [])
  | Except.error (PyError.keyError k) => (Except.ok none, [warnMsg file k])
  | Except.error e => (Except.error e, [])

/-- `get_algolia_doc_from_file` for a file whose open/parse outcome is
`pr`: returns the document option (or the propagated error) together with
the warnings logged while processing this file. -/
def get_algolia_doc_from_file (file : String) (pr : ParseResult) :
    Except PyError (Option AlgoliaDoc) × List String :=
  tryCatchKeyError (tryBody pr) file

/-- The aggregation step of `build_index`: the generator expression over
`results` and the list comprehension `[ ... for doc in algolia_docs if doc]`.
Files are processed in order; a `None` result contributes nothing, a
document is appended, and an uncaught error from one file aborts the whole
run (no documents are produced).  The second component collects the
warnings logged before the run ended. -/
def processBatch : List (String × ParseResult) →
    Except PyError (List AlgoliaDoc) × List String
  | [] => (Except.ok [], [])
  | (file, pr) :: rest =>
    match get_algolia_doc_from_file file pr with
    | (Except.error e, w) => (Except.error e, w)
    | (Except.ok od, w) =>
      match processBatch rest with
      | (Except.error e, ws) => (Except.error e, w ++ ws)
      | (Except.ok docs, ws) => (Except.ok (od.toList ++ docs), w ++ ws)

/-! ## Helper lemmas -/

/-- The file name is a suffix of the full path string. -/
theorem name_suffix_pathChars (f : FSFile) : f.name <:+ pathChars f := by
  show f.name <:+ joinPath f.dirs f.name
  induction f.dirs with
  | nil => exact List.suffix_refl f.name
  | cons d ds ih =>
    show f.name <:+ d ++ '/' :: joinPath ds f.name
    have h : joinPath ds f.name <:+ (d ++ ['/']) ++ joinPath ds f.name :=
      List.suffix_append (d ++ ['/']) (joinPath ds f.name)
    simpa using ih.trans h

/-- Membership in the collector output means the file passed all three
collector conditions. -/
theorem mem_collectorOutput_iff (files : List FSFile) (f : FSFile) :
    f ∈ collectorOutput files ↔ f ∈ files ∧ isCandidate f = true := by
  simp [collectorOutput, List.mem_filter]

/-! ## Claims about the collector -/

/-- C1: after a collector pass, a candidate file larger than 100000 bytes
is exactly 100000 bytes on disk and its content is the 100000-byte prefix
of the original (path untouched); a candidate file of at most 100000 bytes
is left unmodified. -/
theorem c1_truncation (f : FSFile) (hc : isCandidate f = true) :
    (100000 < f.content.length →
      (collectorFileState f).content.length = 100000 ∧
      (collectorFileState f).content = f.content.take 100000 ∧
      (collectorFileState f).dirs = f.dirs ∧
      (collectorFileState f).name = f.name) ∧
    (f.content.length ≤ 100000 → collectorFileState f = f) := by
  constructor
  · intro hbig
    have hs : collectorFileState f = { f with content := f.content.take 100000 } := by
      simp [collectorFileState, hc, truncateFile, hbig]
    rw [hs]
    refine ⟨?_, rfl, rfl, rfl⟩
    simp only [List.length_take]
    omega
  · intro hsmall
    have hn : ¬ (100000 < f.content.length) := by omega
    simp [collectorFileState, hc, truncateFile, hn]

/-- A concrete oversized candidate file, for the C1 witness. -/
def bigFile : FSFile :=
  { dirs := [String.toList "v1"], name := String.toList "big.md",
    content := List.replicate 100001 0 }

/-- Witness for C1 at a concrete candidate file of 100001 bytes. -/
theorem c1_truncation_witness :
    isCandidate bigFile = true ∧
    ((100000 < bigFile.content.length →
      (collectorFileState bigFile).content.length = 100000 ∧
      (collectorFileState bigFile).content = bigFile.content.take 100000 ∧
      (collectorFileState bigFile).dirs = bigFile.dirs ∧
      (collectorFileState bigFile).name = bigFile.name) ∧
    (bigFile.content.length ≤ 100000 → collectorFileState bigFile = bigFile)) :=
  ⟨by decide, c1_truncation bigFile (by decide)⟩

/-- C6: no file whose stem is in the excluded-stem set, and no file whose
full path contains an excluded directory substring, appears in the
collector's output. -/
theorem c6_exclusions (files : List FSFile) (f : FSFile)
    (h : f ∈ collectorOutput files) :
    stemOf f.name ∉ EXCLUDED_FILES ∧
    ∀ d ∈ EXCLUDED_DIRS, ¬ (d <:+: pathChars f) := by
  have hc : isCandidate f = true := ((mem_collectorOutput_iff files f).mp h).2
  simp only [isCandidate, Bool.and_eq_true, Bool.not_eq_true'] at hc
  constructor
  · intro hmem
    have hcont := hc.1.2
    simp only [List.contains_eq_any_beq, List.any_eq_false] at hcont
    have := hcont _ hmem
    simp at this
  · intro d hd hinf
    have hany := hc.2
    simp only [List.any_eq_false] at hany
    have := hany d hd
    simp [hinf] at this

/-- A concrete ordinary content file, for the C6 witness. -/
def introFile : FSFile :=
  { dirs := [String.toList "v1"], name := String.toList "intro.md",
    content := [] }

/-- Witness for C6 at a concrete one-file directory. -/
theorem c6_exclusions_witness :
    introFile ∈ collectorOutput [introFile] ∧
    (stemOf introFile.name ∉ EXCLUDED_FILES ∧
     ∀ d ∈ EXCLUDED_DIRS, ¬ (d <:+: pathChars introFile)) :=
  ⟨by decide, c6_exclusions [introFile] introFile (by decide)⟩

/-- C9: the directory-substring exclusion is tested against the whole path
string, so a file is dropped whenever an excluded substring occurs anywhere
in its full path — in particular when it occurs only inside the file's own
name. -/
theorem c9_substring_on_full_path (files : List FSFile) (f : FSFile)
    (d : List Char) (hd : d ∈ EXCLUDED_DIRS)
    (h : d <:+: pathChars f ∨ d <:+: f.name) :
    f ∉ collectorOutput files := by
  have hpath : d <:+: pathChars f := by
    rcases h with h | h
    · exact h
    · exact h.trans (name_suffix_pathChars f).isInfix
  intro hmem
  have hc : isCandidate f = true := ((mem_collectorOutput_iff files f).mp hmem).2
  simp only [isCandidate, Bool.and_eq_true, Bool.not_eq_true'] at hc
  have hany := hc.2
  simp only [List.any_eq_false] at hany
  have := hany d hd
  simp [hpath] at this

/-- A file whose own name contains the excluded substring while none of its
directories does, for the C9 witness. -/
def mcFile : FSFile :=
  { dirs := [String.toList "docs", String.toList "v1"],
    name := String.toList "main-concepts-overview.md", content := [] }

/-- Witness for C9: main-concepts-overview.md lying in no excluded
directory is still dropped. -/
theorem c9_substring_on_full_path_witness :
    String.toList "main-concepts" ∈ EXCLUDED_DIRS ∧
    (String.toList "main-concepts" <:+: pathChars mcFile ∨
      String.toList "main-concepts" <:+: mcFile.name) ∧
    mcFile ∉ collectorOutput [mcFile] :=
  ⟨by decide, Or.inr (by decide),
    c9_substring_on_full_path [mcFile] mcFile (String.toList "main-concepts")
      (by decide) (Or.inr (by decide))⟩

/-! ## Claims about the extractor's error handling -/

/-- C7: a missing/unreadable file or an unparsable front-matter block is
not caught by the per-file handler (which handles only KeyError): the
error propagates out of get_algolia_doc_from_file with no warning, and
aborts the whole batch with no documents produced. -/
theorem c7_unhandled_errors (file : String) (rest : List (String × ParseResult)) :
    get_algolia_doc_from_file file ParseResult.ioError =
      (Except.error PyError.ioError, []) ∧
    get_algolia_doc_from_file file ParseResult.parseError =
      (Except.error PyError.frontmatterError, []) ∧
    processBatch ((file, ParseResult.ioError) :: rest) =
      (Except.error PyError.ioError, []) ∧
    processBatch ((file, ParseResult.parseError) :: rest) =
      (Except.error PyError.frontmatterError, []) := by
  refine ⟨rfl, rfl, ?_, ?_⟩ <;>
    simp [processBatch, get_algolia_doc_from_file, tryBody, tryCatchKeyError]

/-- C8: a file whose metadata carries a truthy collate flag is skipped
silently: no document and no warning. -/
theorem c8_collate_silent (file : String) (meta : Metadata) (body : String)
    (h : truthy (metaGet meta "collate") = true) :
    get_algolia_doc_from_file file (ParseResult.ok meta body) =
      (Except.ok none, []) := by
  simp [get_algolia_doc_from_file, tryBody, docFromPage, h, tryCatchKeyError]

/-- Witness for C8 at a concrete collate-flagged page. -/
theorem c8_collate_silent_witness :
    truthy (metaGet [("collate", PyValue.vbool true)] "collate") = true ∧
    get_algolia_doc_from_file "docs.md"
        (ParseResult.ok [("collate", PyValue.vbool true)] "body") =
      (Except.ok none, []) :=
  ⟨by decide, c8_collate_silent "docs.md" [("collate", PyValue.vbool true)]
    "body" (by decide)⟩

/-- C2 fails as stated: this collate-flagged file lacks the slug key, so it
produces no document — but it is skipped silently, with NO warning, because
the collate check runs before any metadata key is read. -/
theorem c2_counterexample :
    metaGet [("collate", PyValue.vbool true)] "slug" = none ∧
    get_algolia_doc_from_file "flagged.md"
        (ParseResult.ok [("collate", PyValue.vbool true)] "") =
      (Except.ok none, []) :=
  ⟨rfl, rfl⟩

/-- C2 (amended): for a file that is not collate-flagged and whose front
matter lacks slug (or has slug but lacks title), the extractor produces no
document, emits exactly one warning naming the file and the missing field,
and the rest of the batch is processed exactly as it would be alone. -/
theorem c2_missing_required_field (file : String) (meta : Metadata)
    (body : String) (k : String)
    (hcol : truthy (metaGet meta "collate") = false)
    (hk : (k = "slug" ∧ metaGet meta "slug" = none) ∨
          (k = "title" ∧ metaGet meta "slug" ≠ none ∧
            metaGet meta "title" = none)) :
    get_algolia_doc_from_file file (ParseResult.ok meta body) =
      (Except.ok none, [warnMsg file k]) ∧
    (∀ rest, processBatch ((file, ParseResult.ok meta body) :: rest) =
      ((processBatch rest).1, warnMsg file k :: (processBatch rest).2)) ∧
    file.toList <:+: (warnMsg file k).toList ∧
    k.toList <:+: (warnMsg file k).toList := by
  have hone : get_algolia_doc_from_file file (ParseResult.ok meta body) =
      (Except.ok none, [warnMsg file k]) := by
    rcases hk with ⟨hks, hs⟩ | ⟨hkt, hs, ht⟩
    · subst hks
      simp [get_algolia_doc_from_file, tryBody, docFromPage, hcol, metaIndex,
        hs, tryCatchKeyError]
    · subst hkt
      rcases ho : metaGet meta "slug" with _ | v
      · exact absurd ho hs
      · simp [get_algolia_doc_from_file, tryBody, docFromPage, hcol, metaIndex,
          ho, ht, tryCatchKeyError]
  refine ⟨hone, ?_, ?_, ?_⟩
  · intro rest
    rcases hrest : processBatch rest with ⟨r, ws⟩
    cases r <;> simp [processBatch, hone, hrest]
  · show file.toList <:+: (warnMsg file k).toList
    refine ⟨(String.toList "Error processing file at "), ?_⟩
    refine ⟨(" - ['" ++ k ++ "']. Skipping...").toList, ?_⟩
    simp [warnMsg]
  · show k.toList <:+: (warnMsg file k).toList
    refine ⟨(("Error processing file at " ++ file) ++ " - ['").toList, ?_⟩
    refine ⟨(String.toList "']. Skipping..."), ?_⟩
    simp [warnMsg]

/-- Witness for the amended C2 at a file whose front matter has only a
title. -/
theorem c2_missing_required_field_witness :
    truthy (metaGet [("title", PyValue.vstr "T")] "collate") = false ∧
    get_algolia_doc_from_file "broken.md"
        (ParseResult.ok [("title", PyValue.vstr "T")] "body") =
      (Except.ok none, [warnMsg "broken.md" "slug"]) :=
  ⟨by decide,
    (c2_missing_required_field "broken.md" [("title", PyValue.vstr "T")]
      "body" "slug" (by decide) (Or.inl ⟨rfl, by decide⟩)).1⟩

/-- Modelled from the spec's words, for comparison with the code: derive
categories by removing a single leading path-separator character from the
slug and splitting the remainder on the separator. -/
def categoriesSingleStrip (s : String) : List String :=
  ((match s.toList with
    | '/' :: rest => rest
    | l => l).splitOn '/').map List.asString

/-- The document the code produces for slug "//a", title "T", empty body. -/
def docDoubleSlash : AlgoliaDoc :=
  { objectID := "//a", title := "T", description := none,
    categories := ["a"], content := "" }

/-- C3 fails as stated: for the slug "//a" the code (lstrip strips ALL
leading slashes) yields categories ["a"], while removing a single leading
separator would yield ["", "a"]. -/
theorem c3_counterexample :
    docFromPage [("slug", PyValue.vstr "//a"), ("title", PyValue.vstr "T")] "" =
      Except.ok (some docDoubleSlash) ∧
    docDoubleSlash.categories = ["a"] ∧
    categoriesSingleStrip "//a" = ["", "a"] ∧
    (["a"] : List String) ≠ ["", "a"] :=
  ⟨rfl, rfl, rfl, by decide⟩

/-- C3 (amended): the categories of every produced document equal the slug
with ALL leading '/' characters removed, split on '/'; in particular slug
"/a/b/c" still yields ["a", "b", "c"]. -/
theorem c3_categories (meta : Metadata) (body : String) (s : String)
    (doc : AlgoliaDoc)
    (hslug : metaGet meta "slug" = some (PyValue.vstr s))
    (hdoc : docFromPage meta body = Except.ok (some doc)) :
    doc.categories =
      ((s.toList.dropWhile (fun c => c == '/')).splitOn '/').map List.asString ∧
    (s = "/a/b/c" → doc.categories = ["a", "b", "c"]) := by
  have hmain : doc.categories =
      ((s.toList.dropWhile (fun c => c == '/')).splitOn '/').map List.asString := by
    by_cases hcol : truthy (metaGet meta "collate") = true
    · simp [docFromPage, hcol] at hdoc
    · simp only [docFromPage, hcol, Bool.false_eq_true, if_false, metaIndex,
        hslug, pyLstripSlashes] at hdoc
      rcases ht : metaGet meta "title" with _ | w
      · simp [ht] at hdoc
      · simp only [ht] at hdoc
        cases w with
        | vstr t =>
          simp only [validateStr] at hdoc
          rcases hd : validateOptStr (metaGet meta "description") with e | d
          · simp [hd] at hdoc
          · rw [hd] at hdoc
            simp only [Except.ok.injEq, Option.some.injEq] at hdoc
            subst hdoc
            rfl
        | vbool b => simp [validateStr] at hdoc
        | vint n => simp [validateStr] at hdoc
        | vnone => simp [validateStr] at hdoc
  refine ⟨hmain, ?_⟩
  intro hs
  subst hs
  rw [hmain]
  decide

/-- The document the code produces for slug "/a/b/c", title "T", empty
body. -/
def docRoundTrip : AlgoliaDoc :=
  { objectID := "/a/b/c", title := "T", description := none,
    categories := ["a", "b", "c"], content := "" }

/-- Witness for the amended C3 at the round-trip slug "/a/b/c". -/
theorem c3_categories_witness :
    metaGet [("slug", PyValue.vstr "/a/b/c"), ("title", PyValue.vstr "T")]
        "slug" = some (PyValue.vstr "/a/b/c") ∧
    docFromPage [("slug", PyValue.vstr "/a/b/c"), ("title", PyValue.vstr "T")]
        "" = Except.ok (some docRoundTrip) ∧
    docRoundTrip.categories =
      (("/a/b/c".toList.dropWhile (fun c => c == '/')).splitOn '/').map
        List.asString ∧
    docRoundTrip.categories = ["a", "b", "c"] :=
  ⟨rfl, rfl,
    (c3_categories [("slug", PyValue.vstr "/a/b/c"), ("title", PyValue.vstr "T")]
      "" "/a/b/c" docRoundTrip rfl rfl).1,
    (c3_categories [("slug", PyValue.vstr "/a/b/c"), ("title", PyValue.vstr "T")]
      "" "/a/b/c" docRoundTrip rfl rfl).2 rfl⟩

/-- Is a metadata value a string? -/
def PyValue.isStrVal : PyValue → Bool
  | PyValue.vstr _ => true
  | _ => false

/-- Did a computation end in an uncaught (propagating) error? -/
def exceptAborts {α : Type} : Except PyError α → Bool
  | Except.error _ => true
  | Except.ok _ => false

/-- C10 fails as stated: here the slug key is present with a null value,
but the title key is absent, so the KeyError for title is raised first and
is caught — the file is skipped with a warning and the run is NOT
aborted. -/
theorem c10_counterexample :
    metaGet [("slug", PyValue.vnone)] "slug" = some PyValue.vnone ∧
    get_algolia_doc_from_file "page.md"
        (ParseResult.ok [("slug", PyValue.vnone)] "") =
      (Except.ok none, [warnMsg "page.md" "title"]) :=
  ⟨rfl, rfl⟩

/-- C10 (amended): for a file that passes the collate check and whose
metadata has BOTH the slug and the title key, a non-string (in particular
null) slug value or a non-string title value raises an error the KeyError
handler does not cover: no warning is logged, and the whole batch run
aborts with no documents. -/
theorem c10_nonstring_values_abort (file : String) (meta : Metadata)
    (body : String) (v w : PyValue)
    (hcol : truthy (metaGet meta "collate") = false)
    (hs : metaGet meta "slug" = some v)
    (ht : metaGet meta "title" = some w)
    (hbad : v.isStrVal = false ∨ w.isStrVal = false) :
    exceptAborts (get_algolia_doc_from_file file (ParseResult.ok meta body)).1 =
      true ∧
    (get_algolia_doc_from_file file (ParseResult.ok meta body)).2 = [] ∧
    ∀ rest,
      exceptAborts
          (processBatch ((file, ParseResult.ok meta body) :: rest)).1 = true ∧
      (processBatch ((file, ParseResult.ok meta body) :: rest)).2 = [] := by
  have hbody : docFromPage meta body = Except.error PyError.attributeError ∨
      docFromPage meta body =
        Except.error (PyError.validationError "title") := by
    cases v with
    | vstr s =>
      rcases hbad with hb | hb
      · simp [PyValue.isStrVal] at hb
      · right
        cases w <;> simp [PyValue.isStrVal] at hb <;>
          simp [docFromPage, hcol, metaIndex, hs, ht, pyLstripSlashes,
            validateStr]
    | vbool b =>
      left
      simp [docFromPage, hcol, metaIndex, hs, ht, pyLstripSlashes]
    | vint n =>
      left
      simp [docFromPage, hcol, metaIndex, hs, ht, pyLstripSlashes]
    | vnone =>
      left
      simp [docFromPage, hcol, metaIndex, hs, ht, pyLstripSlashes]
  have hres : get_algolia_doc_from_file file (ParseResult.ok meta body) =
      (docFromPage meta body, []) ∧
      exceptAborts (docFromPage meta body) = true := by
    rcases hbody with hb | hb <;>
      simp [get_algolia_doc_from_file, tryBody, tryCatchKeyError, hb,
        exceptAborts]
  refine ⟨by rw [hres.1]; exact hres.2, by rw [hres.1], ?_⟩
  intro rest
  rcases hbody with hb | hb <;>
    simp [processBatch, get_algolia_doc_from_file, tryBody, tryCatchKeyError,
      hb, exceptAborts]

/-- Witness for the amended C10 at a file with a string slug and a null
title value. -/
theorem c10_nonstring_values_abort_witness :
    truthy (metaGet [("slug", PyValue.vstr "/a"), ("title", PyValue.vnone)]
        "collate") = false ∧
    metaGet [("slug", PyValue.vstr "/a"), ("title", PyValue.vnone)] "slug" =
      some (PyValue.vstr "/a") ∧
    metaGet [("slug", PyValue.vstr "/a"), ("title", PyValue.vnone)] "title" =
      some PyValue.vnone ∧
    exceptAborts
        (get_algolia_doc_from_file "null-title.md"
          (ParseResult.ok [("slug", PyValue.vstr "/a"), ("title", PyValue.vnone)]
            "")).1 = true :=
  ⟨rfl, rfl, rfl,
    (c10_nonstring_values_abort "null-title.md"
      [("slug", PyValue.vstr "/a"), ("title", PyValue.vnone)] ""
      (PyValue.vstr "/a") PyValue.vnone rfl rfl rfl (Or.inr rfl)).1⟩

/-! ## Claims about content cleaning -/

/-- Skipping mode: the scanner deletes up to and including the first `>`
and then resumes copying. -/
theorem stripAux_skip (mid post : List Char) (h : '>' ∉ mid) :
    stripAux (mid ++ '>' :: post) true = stripAux post false := by
  induction mid with
  | nil => simp [stripAux]
  | cons a mid ih =>
    have ha : ¬ (a = '>') := by
      intro hq
      exact h (hq ▸ List.mem_cons_self a mid)
    have h2 : '>' ∉ mid := fun hm => h (List.mem_cons_of_mem a hm)
    simp only [List.cons_append, stripAux, if_neg ha]
    exact ih h2

/-- The regex pass deletes a lazily matched span: a `<`, arbitrary
characters without `>` (newlines included), and the closing `>`; the
prefix before the span (itself free of `<`) is copied verbatim. -/
theorem stripAux_span (pre mid post : List Char) (h1 : '<' ∉ pre)
    (h2 : '>' ∉ mid) :
    stripAux (pre ++ '<' :: (mid ++ '>' :: post)) false =
      pre ++ stripAux post false := by
  induction pre with
  | nil =>
    have hmem : '>' ∈ mid ++ '>' :: post :=
      List.mem_append_right mid (List.mem_cons_self '>' post)
    rw [List.nil_append]
    rw [show stripAux ('<' :: (mid ++ '>' :: post)) false =
        stripAux (mid ++ '>' :: post) true from by simp [stripAux, hmem]]
    exact stripAux_skip mid post h2
  | cons a pre ih =>
    have ha : ¬ (a = '<') := by
      intro hq
      exact h1 (hq ▸ List.mem_cons_self a pre)
    have h1a : '<' ∉ pre := fun hm => h1 (List.mem_cons_of_mem a hm)
    rw [List.cons_append]
    rw [show stripAux (a :: (pre ++ '<' :: (mid ++ '>' :: post))) false =
        a :: stripAux (pre ++ '<' :: (mid ++ '>' :: post)) false from by
      simp [stripAux, ha]]
    rw [ih h1a, List.cons_append]

/-- The scanner only ever deletes characters. -/
theorem stripAux_sublist (l : List Char) (b : Bool) :
    List.Sublist (stripAux l b) l := by
  induction l generalizing b with
  | nil => simp [stripAux]
  | cons c rest ih =>
    cases b with
    | true =>
      by_cases hc : c = '>'
      · simp only [stripAux, if_pos hc]
        exact (ih false).trans (List.sublist_cons_self c rest)
      · simp only [stripAux, if_neg hc]
        exact (ih true).trans (List.sublist_cons_self c rest)
    | false =>
      by_cases hc : c = '<' ∧ '>' ∈ rest
      · simp only [stripAux, if_pos hc]
        exact (ih true).trans (List.sublist_cons_self c rest)
      · simp only [stripAux, if_neg hc]
        exact List.Sublist.cons₂ c (ih false)

/-- Having a removable span is preserved upward along sublists. -/
theorem hasSpan_of_sublist {t s : List Char} (hsub : List.Sublist t s)
    (h : hasSpan t) : hasSpan s := by
  induction hsub with
  | slnil => exact h
  | cons a hsub ih =>
    simp only [hasSpan]
    exact Or.inr (ih h)
  | cons₂ a hsub ih =>
    simp only [hasSpan] at h ⊢
    rcases h with ⟨h1, h2⟩ | h3
    · exact Or.inl ⟨h1, hsub.subset h2⟩
    · exact Or.inr (ih h3)

/-- The scanner's output contains no removable span, whatever mode it
starts in. -/
theorem stripAux_no_span (l : List Char) :
    ¬ hasSpan (stripAux l false) ∧ ¬ hasSpan (stripAux l true) := by
  induction l with
  | nil => simp [stripAux, hasSpan]
  | cons c rest ih =>
    constructor
    · by_cases hc : c = '<' ∧ '>' ∈ rest
      · simp only [stripAux, if_pos hc]
        exact ih.2
      · simp only [stripAux, if_neg hc]
        simp only [hasSpan]
        rintro (⟨h1, h2⟩ | h3)
        · exact hc ⟨h1, (stripAux_sublist rest false).subset h2⟩
        · exact ih.1 h3
    · by_cases hc : c = '>'
      · simp only [stripAux, if_pos hc]
        exact ih.1
      · simp only [stripAux, if_neg hc]
        exact ih.2

/-- On span-free input the regex pass is the identity (an unmatched `<` or
a stray `>` is kept). -/
theorem stripAux_of_not_hasSpan (l : List Char) (h : ¬ hasSpan l) :
    stripAux l false = l := by
  induction l with
  | nil => rfl
  | cons c rest ih =>
    simp only [hasSpan, not_or] at h
    simp only [stripAux, if_neg h.1]
    rw [ih h.2]

/-- Newline/hash removal distributes over append. -/
theorem removeNlHash_append (l₁ l₂ : List Char) :
    removeNlHash (l₁ ++ l₂) = removeNlHash l₁ ++ removeNlHash l₂ := by
  simp [removeNlHash, List.filter_append]

/-- Newline/hash removal only deletes characters. -/
theorem removeNlHash_sublist (l : List Char) :
    List.Sublist (removeNlHash l) l :=
  (List.filter_sublist _).trans (List.filter_sublist l)

/-- No newline survives the newline/hash removal. -/
theorem nl_not_mem_removeNlHash (l : List Char) : '\n' ∉ removeNlHash l := by
  intro h
  have h2 := (List.filter_sublist (l.filter (fun c => !(c == '\n')))).subset h
  rw [List.mem_filter] at h2
  simp at h2

/-- No hash survives the newline/hash removal. -/
theorem hash_not_mem_removeNlHash (l : List Char) : '#' ∉ removeNlHash l := by
  intro h
  rw [removeNlHash, List.mem_filter] at h
  simp at h

/-- Newline/hash removal is the identity on lists without those
characters. -/
theorem removeNlHash_of_not_mem (l : List Char) (hnl : '\n' ∉ l)
    (hh : '#' ∉ l) : removeNlHash l = l := by
  rw [removeNlHash]
  rw [List.filter_eq_self.mpr]
  · rw [List.filter_eq_self.mpr]
    intro a ha
    simp only [Bool.not_eq_eq_eq_not, Bool.not_true, beq_eq_false_iff_ne]
    intro hq
    exact hnl (hq ▸ ha)
  · intro a ha
    have ha2 := (List.filter_sublist l).subset ha
    simp only [Bool.not_eq_eq_eq_not, Bool.not_true, beq_eq_false_iff_ne]
    intro hq
    exact hh (hq ▸ ha2)

/-- C4: the content cleaning removes every lazily matched angle-bracket
span (the span may contain newlines), removes every newline and every '#'
character, and performs no other transformation: span-free text undergoes
only the newline/hash removal, and the output is always a subsequence of
the input (nothing is inserted, reordered or rewritten). -/
theorem c4_content_cleaning (s pre mid post : List Char) :
    ('<' ∉ pre → '>' ∉ mid →
      cleanContent (pre ++ '<' :: (mid ++ '>' :: post)) =
        removeNlHash pre ++ cleanContent post) ∧
    (¬ hasSpan s → cleanContent s = removeNlHash s) ∧
    List.Sublist (cleanContent s) s := by
  refine ⟨?_, ?_, ?_⟩
  · intro h1 h2
    rw [cleanContent, stripTagSpans, stripAux_span pre mid post h1 h2,
      removeNlHash_append]
    rfl
  · intro h
    rw [cleanContent, stripTagSpans, stripAux_of_not_hasSpan s h]
  · exact (removeNlHash_sublist _).trans (stripAux_sublist s false)

/-- Witness for C4: a span containing a newline is removed; markdown
emphasis and list markers outside the span survive. -/
theorem c4_content_cleaning_witness :
    ('<' ∉ String.toList "- *a* ") ∧ ('>' ∉ String.toList "b\nc") ∧
    cleanContent (String.toList "- *a* " ++
        '<' :: (String.toList "b\nc" ++ '>' :: String.toList "#d*")) =
      removeNlHash (String.toList "- *a* ") ++
        cleanContent (String.toList "#d*") :=
  ⟨by decide, by decide,
    (c4_content_cleaning [] (String.toList "- *a* ") (String.toList "b\nc")
      (String.toList "#d*")).1 (by decide) (by decide)⟩

/-- C5: content cleaning is idempotent — cleaning a second time changes
nothing — and its output contains no removable angle-bracket span, no
newline and no '#'. -/
theorem c5_cleaning_idempotent (s : String) :
    get_page_content (get_page_content s) = get_page_content s ∧
    ¬ hasSpan (get_page_content s).toList ∧
    '\n' ∉ (get_page_content s).toList ∧
    '#' ∉ (get_page_content s).toList := by
  have htl : (get_page_content s).toList = cleanContent s.toList := rfl
  have hspan : ¬ hasSpan (cleanContent s.toList) := by
    intro hh
    exact (stripAux_no_span s.toList).1
      (hasSpan_of_sublist (removeNlHash_sublist _) hh)
  have hnl : '\n' ∉ cleanContent s.toList := nl_not_mem_removeNlHash _
  have hhash : '#' ∉ cleanContent s.toList := hash_not_mem_removeNlHash _
  refine ⟨?_, by rw [htl]; exact hspan, by rw [htl]; exact hnl,
    by rw [htl]; exact hhash⟩
  show (cleanContent (get_page_content s).toList).asString =
    (cleanContent s.toList).asString
  rw [htl]
  have hfix : cleanContent (cleanContent s.toList) = cleanContent s.toList := by
    show removeNlHash (stripTagSpans (cleanContent s.toList)) =
      cleanContent s.toList
    rw [stripTagSpans, stripAux_of_not_hasSpan _ hspan]
    exact removeNlHash_of_not_mem _ hnl hhash
  rw [hfix]
